import Mathlib

/-!
Verification of the SentimentLab analysis core against its specification.

The development shallowly embeds the TypeScript sources:
  * `src/services/huggingfaceApi.ts` — label mapping, score normalization,
    verdict selection, keyword extraction, demo simulator, API error routing;
  * `src/hooks/useSentimentAnalysis.ts` — the orchestrator state machine
    (single/batch analysis, deletion, persistence).

JavaScript numbers are modelled as rationals (`ℚ`); the only place where a
non-finite value can arise in the code under study (the batch summary's
`averageConfidence` division) is modelled with an explicit `JSNum` type that
has `nan` and infinity values with JavaScript's division-by-zero semantics.
Network I/O, `Math.random`, `Date.now` and id generation are modelled as
explicit oracle parameters.
-/

namespace SentimentLab

/-- The canonical sentiment vocabulary, `'positive' | 'negative' | 'neutral'`. -/
inductive Sentiment where
  | positive
  | negative
  | neutral
deriving DecidableEq, Repr

/-- The `scores` object literal `{ positive, negative, neutral }`. -/
structure Scores where
  positive : ℚ
  negative : ℚ
  neutral : ℚ
deriving DecidableEq, Repr

/-- `scores[k]` — field read by canonical sentiment key. -/
def Scores.get (s : Scores) : Sentiment → ℚ
  | .positive => s.positive
  | .negative => s.negative
  | .neutral => s.neutral

/-- `scores[k] = v` — field write by canonical sentiment key. -/
def Scores.set (s : Scores) : Sentiment → ℚ → Scores
  | .positive, v => { s with positive := v }
  | .negative, v => { s with negative := v }
  | .neutral, v => { s with neutral := v }

/-- Sum of the three buckets (the quantity the code intends `totalScore` to track). -/
def Scores.total (s : Scores) : ℚ := s.positive + s.negative + s.neutral

/-- `pat` is a prefix of `s` (character lists). -/
def leadsList : List Char → List Char → Bool
  | [], _ => true
  | _ :: _, [] => false
  | p :: ps, c :: cs => p == c && leadsList ps cs

/-- `s.includes(pat)` on character lists: `pat` occurs contiguously in `s`. -/
def containsList (pat : List Char) : List Char → Bool
  | [] => pat.isEmpty
  | c :: cs => leadsList pat (c :: cs) || containsList pat cs

/-- JavaScript `s.includes(pat)`. -/
def jsIncludes (s pat : String) : Bool := containsList pat.toList s.toList

/-- JavaScript `s.toLowerCase()` (ASCII, characterwise). -/
def jsToLower (s : String) : String := String.mk (s.toList.map Char.toLower)

/-- `mapSentimentLabel` (huggingfaceApi.ts lines 141–152): case-insensitive
substring/keyword routing of a raw classifier label into the canonical vocabulary. -/
def mapSentimentLabel (label : String) : Sentiment :=
  let n := jsToLower label
  if jsIncludes n "positive" || n == "label_2" || n == "pos" ||
     jsIncludes n "5 stars" || jsIncludes n "4 stars" then
    .positive
  else if jsIncludes n "negative" || n == "label_0" || n == "neg" ||
     jsIncludes n "1 star" || jsIncludes n "2 stars" then
    .negative
  else
    .neutral

/-- `Math.max(0, Math.min(1, x))` — clamp a raw score into `[0,1]`. -/
def clamp01 (q : ℚ) : ℚ := max 0 (min 1 q)

/-- One raw classifier output entry `{label, score}`. -/
structure RawEntry where
  label : String
  score : ℚ
deriving DecidableEq, Repr

/-- The canonical bucket an entry's label maps to. -/
def bucketOf (r : RawEntry) : Sentiment := mapSentimentLabel r.label

/-- One iteration of the `results.forEach` loop of `analyzeSentiment`
(lines 208–212): the mapped bucket is ASSIGNED the clamped score (overwriting
any previous value for that bucket), while `totalScore` ACCUMULATES every
clamped score. -/
def processStep (acc : Scores × ℚ) (r : RawEntry) : Scores × ℚ :=
  let v := clamp01 r.score
  (acc.1.set (bucketOf r) v, acc.2 + v)

/-- The score-accumulation loop of `analyzeSentiment` (lines 204–212),
starting from `{ positive: 0, negative: 0, neutral: 0 }` and `totalScore = 0`. -/
def processResults (results : List RawEntry) : Scores × ℚ :=
  results.foldl processStep (⟨0, 0, 0⟩, 0)

/-- The normalization step of `analyzeSentiment` (lines 214–219): rescale all
three buckets by `totalScore` when the accumulated total is positive and more
than 0.01 away from 1. -/
def normalizeScores (results : List RawEntry) : Scores :=
  let p := processResults results
  if p.2 > 0 ∧ |p.2 - 1| > 1 / 100 then
    ⟨p.1.positive / p.2, p.1.negative / p.2, p.1.neutral / p.2⟩
  else
    p.1

/-- The verdict selection of `analyzeSentiment` (lines 221–224):
`Object.entries(scores).reduce((a, b) => scores[a[0]] > scores[b[0]] ? a : b)`
over entry order `positive, negative, neutral`; on a tie the reduce keeps `b`,
the later entry. -/
def pickVerdict (s : Scores) : Sentiment :=
  let a1 := if s.positive > s.negative then Sentiment.positive else Sentiment.negative
  if s.get a1 > s.neutral then a1 else Sentiment.neutral

/-- Sum of the clamped raw scores of the input. -/
def clampedSum (results : List RawEntry) : ℚ :=
  (results.map (fun r => clamp01 r.score)).sum

/-- JavaScript `\w` (ASCII word character). -/
def isWordChar (c : Char) : Bool := c.isAlphanum || c == '_'

/-- Fuel-indexed splitter: maximal runs of word characters, i.e. the matches of
`/\b\w+\b/g`. The fuel argument only bounds recursion depth; any fuel at least
the length of the list yields the full token list. -/
def splitTokensAux : Nat → List Char → List String
  | 0, _ => []
  | _ + 1, [] => []
  | fuel + 1, c :: rest =>
    if isWordChar c then
      String.mk (c :: rest.takeWhile isWordChar) :: splitTokensAux fuel (rest.dropWhile isWordChar)
    else
      splitTokensAux fuel rest

/-- `text.toLowerCase().match(/\b\w+\b/g) || []` — the word list both
`extractKeywords` (line 172) and `analyzeSentimentDemo` (line 281) scan. -/
def jsWords (text : String) : List String :=
  splitTokensAux (jsToLower text).toList.length (jsToLower text).toList

/-- One entry of a Result's keyword list. -/
structure Keyword where
  word : String
  sentiment : Sentiment
  weight : ℚ
deriving DecidableEq, Repr

/-- The positive lexicon of `extractKeywords` (lines 160–164), 26 entries. -/
def positiveWords : List String :=
  ["good", "great", "excellent", "amazing", "wonderful", "fantastic", "love", "best",
   "perfect", "awesome", "outstanding", "brilliant", "superb", "magnificent",
   "incredible", "marvelous", "exceptional", "delightful", "impressive", "remarkable",
   "beautiful", "lovely", "nice", "pleasant", "enjoyable", "satisfying"]

/-- The negative lexicon of `extractKeywords` (lines 166–170), 26 entries. -/
def negativeWords : List String :=
  ["bad", "terrible", "awful", "horrible", "hate", "worst", "disappointing", "poor",
   "useless", "disgusting", "dreadful", "appalling", "atrocious", "abysmal", "pathetic",
   "miserable", "unpleasant", "annoying", "frustrating", "irritating", "boring",
   "stupid", "ridiculous", "waste", "failure", "broken"]

/-- One iteration of the `words.forEach` push loop of `extractKeywords`
(lines 175–181). -/
def keywordStep (acc : List Keyword) (word : String) : List Keyword :=
  if positiveWords.contains word then acc ++ [⟨word, .positive, 8/10⟩]
  else if negativeWords.contains word then acc ++ [⟨word, .negative, 8/10⟩]
  else acc

/-- The duplicate-removal filter of `extractKeywords` (lines 184–186):
`keywords.filter((k, i, self) => i === self.findIndex(x => x.word === k.word))`,
i.e. keep only the first entry for each word. `seen` is the set of words whose
first entry has already been kept. -/
def dedupFirst (seen : List String) : List Keyword → List Keyword
  | [] => []
  | k :: rest =>
    if k.word ∈ seen then dedupFirst seen rest
    else k :: dedupFirst (k.word :: seen) rest

/-- `extractKeywords` (lines 154–189). The `sentiment` argument is received but
never used by the extraction, exactly as in the source. -/
def extractKeywords (text : String) (sentiment : Sentiment) : List Keyword :=
  let words := jsWords text
  let keywords := words.foldl keywordStep []
  (dedupFirst [] keywords).take 5

example : mapSentimentLabel "LABEL_2" = .positive := by decide
example : mapSentimentLabel "4 stars" = .positive := by decide
example : mapSentimentLabel "neg" = .negative := by decide
example : mapSentimentLabel "label_1" = .neutral := by decide
example : processResults [⟨"pos", 1/2⟩, ⟨"positive", 3/10⟩] = (⟨3/10, 0, 0⟩, 4/5) := by
  have h1 : bucketOf ⟨"pos", 1/2⟩ = .positive := by decide
  have h2 : bucketOf ⟨"positive", 3/10⟩ = .positive := by decide
  simp only [processResults, List.foldl_cons, List.foldl_nil, processStep, h1, h2]
  simp [Scores.set, clamp01]
  norm_num [min_def, max_def]
example : normalizeScores [⟨"pos", 1/2⟩, ⟨"positive", 3/10⟩] = ⟨3/8, 0, 0⟩ := by
  have h1 : bucketOf ⟨"pos", 1/2⟩ = .positive := by decide
  have h2 : bucketOf ⟨"positive", 3/10⟩ = .positive := by decide
  simp only [normalizeScores, processResults, List.foldl_cons, List.foldl_nil,
    processStep, h1, h2]
  simp [Scores.set, clamp01]
  norm_num [min_def, max_def, abs]
example : pickVerdict ⟨1/2, 1/2, 0⟩ = .negative := by
  norm_num [pickVerdict, Scores.get]

theorem Scores.get_set (s : Scores) (m b : Sentiment) (v : ℚ) :
    (s.set m v).get b = if b = m then v else s.get b := by
  cases m <;> cases b <;> simp [Scores.set, Scores.get]

theorem Scores.total_set (s : Scores) (m : Sentiment) (v : ℚ) :
    (s.set m v).total = s.total - s.get m + v := by
  cases m <;> simp [Scores.set, Scores.get, Scores.total] <;> ring

theorem Scores.eq_zero_of_total (s : Scores) (h : ∀ b, 0 ≤ s.get b)
    (ht : s.total = 0) : s = ⟨0, 0, 0⟩ := by
  have hp := h .positive
  have hn := h .negative
  have hu := h .neutral
  simp only [Scores.get] at hp hn hu
  simp only [Scores.total] at ht
  cases s
  simp_all
  constructor
  · linarith
  constructor <;> linarith

theorem clamp01_nonneg (q : ℚ) : 0 ≤ clamp01 q := le_max_left 0 _

theorem clampedSum_cons (r : RawEntry) (l : List RawEntry) :
    clampedSum (r :: l) = clamp01 r.score + clampedSum l := by
  simp [clampedSum]

theorem clampedSum_nonneg (l : List RawEntry) : 0 ≤ clampedSum l := by
  induction l with
  | nil => simp [clampedSum]
  | cons r t ih =>
    rw [clampedSum_cons]
    have := clamp01_nonneg r.score
    linarith

theorem clamp_eq_zero_of_sum (l : List RawEntry) (h : clampedSum l = 0) :
    ∀ r ∈ l, clamp01 r.score = 0 := by
  induction l with
  | nil => simp
  | cons r t ih =>
    rw [clampedSum_cons] at h
    have h1 := clamp01_nonneg r.score
    have h2 := clampedSum_nonneg t
    intro x hx
    rcases List.mem_cons.mp hx with rfl | hx
    · linarith
    · exact ih (by linarith) x hx

theorem foldl_processStep_snd (l : List RawEntry) :
    ∀ acc : Scores × ℚ, (l.foldl processStep acc).2 = acc.2 + clampedSum l := by
  induction l with
  | nil => intro acc; simp [clampedSum]
  | cons r t ih =>
    intro acc
    rw [List.foldl_cons, ih, clampedSum_cons]
    simp [processStep]
    ring

theorem foldl_processStep_nonneg (l : List RawEntry) :
    ∀ acc : Scores × ℚ, (∀ b, 0 ≤ acc.1.get b) →
    ∀ b, 0 ≤ (l.foldl processStep acc).1.get b := by
  induction l with
  | nil => intro acc h; exact h
  | cons r t ih =>
    intro acc h
    rw [List.foldl_cons]
    apply ih
    intro b
    rw [show (processStep acc r).1 = acc.1.set (bucketOf r) (clamp01 r.score) from rfl,
      Scores.get_set]
    split
    · exact clamp01_nonneg r.score
    · exact h b

theorem foldl_processStep_total (l : List RawEntry) :
    ∀ acc : Scores × ℚ, (l.map bucketOf).Nodup →
    (∀ b ∈ l.map bucketOf, acc.1.get b = 0) →
    (l.foldl processStep acc).1.total = acc.1.total + clampedSum l := by
  induction l with
  | nil => intro acc _ _; simp [clampedSum]
  | cons r t ih =>
    intro acc hnd h0
    rw [List.map_cons, List.nodup_cons] at hnd
    rw [List.foldl_cons, ih _ hnd.2, clampedSum_cons]
    · rw [show (processStep acc r).1 = acc.1.set (bucketOf r) (clamp01 r.score) from rfl,
        Scores.total_set, h0 (bucketOf r) (by simp)]
      ring
    · intro b hb
      rw [show (processStep acc r).1 = acc.1.set (bucketOf r) (clamp01 r.score) from rfl,
        Scores.get_set]
      rw [if_neg]
      · exact h0 b (List.mem_cons_of_mem _ hb)
      · rintro rfl
        exact hnd.1 hb

theorem foldl_processStep_zero (l : List RawEntry) :
    ∀ acc : Scores × ℚ, (∀ r ∈ l, clamp01 r.score = 0) → acc.1 = ⟨0, 0, 0⟩ →
    (l.foldl processStep acc).1 = ⟨0, 0, 0⟩ := by
  induction l with
  | nil => intro acc _ h; exact h
  | cons r t ih =>
    intro acc h hz
    rw [List.foldl_cons]
    apply ih
    · intro x hx; exact h x (List.mem_cons_of_mem _ hx)
    · rw [show (processStep acc r).1 = acc.1.set (bucketOf r) (clamp01 r.score) from rfl,
        h r (List.mem_cons_self r t), hz]
      cases hb : bucketOf r <;> simp [Scores.set]

/-- C1: as stated the claim fails on the code. When two raw labels map to the
same canonical bucket the later entry OVERWRITES the bucket while `totalScore`
still accumulates both, so the normalized output can sum to a value far from 1
even though the clamped input scores do not sum to 0. Concretely, for input
`[("pos", 0.5), ("positive", 0.3)]` the output is `(0.375, 0, 0)`. -/
theorem C1_counterexample :
    clampedSum [⟨"pos", 1/2⟩, ⟨"positive", 3/10⟩] ≠ 0 ∧
    normalizeScores [⟨"pos", 1/2⟩, ⟨"positive", 3/10⟩] ≠ ⟨0, 0, 0⟩ ∧
    ¬ |(normalizeScores [⟨"pos", 1/2⟩, ⟨"positive", 3/10⟩]).total - 1| ≤ 1 / 100 := by
  have h1 : bucketOf ⟨"pos", 1/2⟩ = .positive := by decide
  have h2 : bucketOf ⟨"positive", 3/10⟩ = .positive := by decide
  have hn : normalizeScores [⟨"pos", 1/2⟩, ⟨"positive", 3/10⟩] = ⟨3/8, 0, 0⟩ := by
    simp only [normalizeScores, processResults, List.foldl_cons, List.foldl_nil,
      processStep, h1, h2]
    simp [Scores.set, clamp01]
    norm_num [min_def, max_def, abs]
  refine ⟨?_, ?_, ?_⟩
  · simp [clampedSum, clamp01]
    norm_num [min_def, max_def]
  · rw [hn]
    intro h
    have := congrArg Scores.positive h
    norm_num at this
  · rw [hn]
    norm_num [Scores.total, abs]

/-- C1 (amended): provided no two input entries map to the same canonical
bucket, the normalized output sums to 1 within tolerance 0.01, and it is the
all-zero triple exactly when the clamped input scores sum to 0. -/
theorem C1_amended (results : List RawEntry)
    (hnd : (results.map bucketOf).Nodup) :
    (clampedSum results = 0 → normalizeScores results = ⟨0, 0, 0⟩) ∧
    (clampedSum results ≠ 0 →
      |(normalizeScores results).total - 1| ≤ 1 / 100 ∧
      normalizeScores results ≠ ⟨0, 0, 0⟩) := by
  have hsnd : (processResults results).2 = clampedSum results := by
    rw [show processResults results = results.foldl processStep (⟨0, 0, 0⟩, 0) from rfl,
      foldl_processStep_snd]
    ring
  have htot : (processResults results).1.total = clampedSum results := by
    rw [show processResults results = results.foldl processStep (⟨0, 0, 0⟩, 0) from rfl,
      foldl_processStep_total results _ hnd]
    · simp [Scores.total]
    · intro b _; cases b <;> simp [Scores.get]
  constructor
  · intro hz
    have hcond : ¬ ((processResults results).2 > 0 ∧
        |(processResults results).2 - 1| > 1 / 100) := by
      rw [hsnd, hz]; simp
    rw [normalizeScores, if_neg hcond]
    exact foldl_processStep_zero results _ (clamp_eq_zero_of_sum results hz) rfl
  · intro hz
    have hpos : 0 < clampedSum results :=
      lt_of_le_of_ne (clampedSum_nonneg results) (Ne.symm hz)
    rw [normalizeScores]
    split
    · rename_i hcond
      have hne : (processResults results).2 ≠ 0 := by rw [hsnd]; exact hz
      constructor
      · have : ((⟨(processResults results).1.positive / (processResults results).2,
            (processResults results).1.negative / (processResults results).2,
            (processResults results).1.neutral / (processResults results).2⟩ : Scores)).total
            = (processResults results).1.total / (processResults results).2 := by
          simp [Scores.total]
          ring
        rw [this, htot, ← hsnd, hsnd]
        rw [div_self hz]
        norm_num
      · intro h
        have hp := congrArg Scores.positive h
        have hq := congrArg Scores.negative h
        have hr := congrArg Scores.neutral h
        dsimp only at hp hq hr
        have hp0 := (div_eq_zero_iff.mp hp).resolve_right hne
        have hq0 := (div_eq_zero_iff.mp hq).resolve_right hne
        have hr0 := (div_eq_zero_iff.mp hr).resolve_right hne
        have hzero : (processResults results).1.total = 0 := by
          simp [Scores.total, hp0, hq0, hr0]
        rw [htot] at hzero
        exact hz hzero
    · rename_i hcond
      rw [not_and_or] at hcond
      have h2pos : (processResults results).2 > 0 := by rw [hsnd]; exact hpos
      rcases hcond with hc | hc
      · exact absurd h2pos hc
      · push_neg at hc
        constructor
        · rw [htot, ← hsnd]; exact hc
        · intro h
          have := congrArg Scores.total h
          rw [htot] at this
          simp [Scores.total] at this
          exact hz this

/-- C1 (amended) at a concrete input: `[("positive", 0.6), ("negative", 0.3)]`
has distinct buckets and a nonzero clamped sum, and its output sums to within
0.01 of 1 and is not all zeros. -/
theorem C1_amended_witness :
    ((([⟨"positive", 3/5⟩, ⟨"negative", 3/10⟩] : List RawEntry).map bucketOf).Nodup ∧
      clampedSum [⟨"positive", 3/5⟩, ⟨"negative", 3/10⟩] ≠ 0) ∧
    (|(normalizeScores [⟨"positive", 3/5⟩, ⟨"negative", 3/10⟩]).total - 1| ≤ 1 / 100 ∧
      normalizeScores [⟨"positive", 3/5⟩, ⟨"negative", 3/10⟩] ≠ ⟨0, 0, 0⟩) := by
  have hnd : (([⟨"positive", 3/5⟩, ⟨"negative", 3/10⟩] : List RawEntry).map bucketOf).Nodup := by
    decide
  have hs : clampedSum [⟨"positive", 3/5⟩, ⟨"negative", 3/10⟩] ≠ 0 := by
    simp [clampedSum, clamp01]
    norm_num [min_def, max_def]
  exact ⟨⟨hnd, hs⟩, (C1_amended _ hnd).2 hs⟩

/-- C2: the code contradicts the claim (and its own `totalScore` bookkeeping):
at input `[("pos", 0.5), ("positive", 0.3)]`, both labels map to bucket
`positive`, the claim demands the bucket to hold `clamp01(0.5 + 0.3) = 0.8`
before rescaling, but the code's assignment leaves `0.3` (the later entry
overwrote the earlier), while its accumulated `totalScore` is `0.8`. -/
theorem C2_code_eval :
    bucketOf ⟨"pos", 1/2⟩ = .positive ∧
    bucketOf ⟨"positive", 3/10⟩ = .positive ∧
    (processResults [⟨"pos", 1/2⟩, ⟨"positive", 3/10⟩]).1.positive = 3/10 ∧
    (processResults [⟨"pos", 1/2⟩, ⟨"positive", 3/10⟩]).2 = 4/5 ∧
    clamp01 (1/2 + 3/10) = 4/5 ∧ (3 : ℚ)/10 ≠ 4/5 := by
  have h1 : bucketOf ⟨"pos", 1/2⟩ = .positive := by decide
  have h2 : bucketOf ⟨"positive", 3/10⟩ = .positive := by decide
  refine ⟨h1, h2, ?_, ?_, ?_, by norm_num⟩ <;>
    simp [processResults, processStep, h1, h2, clamp01, Scores.set] <;>
    norm_num [min_def, max_def]

/-- The selection the code actually performs, written out per the amended
reading of the spec sentence: the LAST maximum in the fixed entry order
(positive, negative, neutral) wins ties. -/
def lastMaxSentiment (s : Scores) : Sentiment :=
  if s.neutral = max s.positive (max s.negative s.neutral) then .neutral
  else if s.negative = max s.positive (max s.negative s.neutral) then .negative
  else .positive

/-- C3: as stated the claim fails on the code. On the tied distribution
`(0.5, 0.5, 0)` the maximum is attained by both positive and negative, and
the `reduce` keeps the LATER entry on ties, so the verdict is negative, not
the first maximum (positive) the claim demands. -/
theorem C3_counterexample :
    (⟨1/2, 1/2, 0⟩ : Scores).positive = (⟨1/2, 1/2, 0⟩ : Scores).negative ∧
    (⟨1/2, 1/2, 0⟩ : Scores).neutral < (⟨1/2, 1/2, 0⟩ : Scores).positive ∧
    pickVerdict ⟨1/2, 1/2, 0⟩ = Sentiment.negative ∧
    Sentiment.negative ≠ Sentiment.positive := by
  refine ⟨rfl, by norm_num, ?_, by decide⟩
  norm_num [pickVerdict, Scores.get]

/-- C3 (amended): the verdict is always the sentiment attaining the maximum
normalized score, with ties broken by the fixed enumeration order positive,
negative, neutral where the LAST maximum wins. -/
theorem C3_amended (s : Scores) : pickVerdict s = lastMaxSentiment s := by
  by_cases hpn : s.negative < s.positive
  · by_cases hpu : s.neutral < s.positive
    · have hM : max s.positive (max s.negative s.neutral) = s.positive :=
        max_eq_left (max_le hpn.le hpu.le)
      simp [pickVerdict, lastMaxSentiment, Scores.get, hpn, hpu, hM,
        ne_of_lt hpu, ne_of_lt hpn]
    · push_neg at hpu
      have hM : max s.positive (max s.negative s.neutral) = s.neutral := by
        rw [max_eq_right (le_trans hpn.le hpu), max_eq_right hpu]
      simp [pickVerdict, lastMaxSentiment, Scores.get, hpn, hM, not_lt.mpr hpu]
  · push_neg at hpn
    by_cases hnu : s.neutral < s.negative
    · have hM : max s.positive (max s.negative s.neutral) = s.negative := by
        rw [max_eq_left hnu.le, max_eq_right hpn]
      simp [pickVerdict, lastMaxSentiment, Scores.get, not_lt.mpr hpn, hnu, hM,
        ne_of_lt hnu]
    · push_neg at hnu
      have hM : max s.positive (max s.negative s.neutral) = s.neutral := by
        rw [max_eq_right hnu, max_eq_right (le_trans hpn hnu)]
      simp [pickVerdict, lastMaxSentiment, Scores.get, not_lt.mpr hpn,
        not_lt.mpr hnu, hM]

theorem mem_foldl_keywordStep (words : List String) :
    ∀ (acc : List Keyword) (k : Keyword), k ∈ words.foldl keywordStep acc →
      k ∈ acc ∨ (k.weight = 8/10 ∧
        ((k.sentiment = .positive ∧ k.word ∈ positiveWords) ∨
         (k.sentiment = .negative ∧ k.word ∈ negativeWords))) := by
  induction words with
  | nil => intro acc k h; exact Or.inl h
  | cons w ws ih =>
    intro acc k h
    rcases ih _ k h with h' | h'
    · unfold keywordStep at h'
      split_ifs at h' with h1 h2
      · rcases List.mem_append.mp h' with h'' | h''
        · exact Or.inl h''
        · simp only [List.mem_singleton] at h''
          subst h''
          exact Or.inr ⟨rfl, Or.inl ⟨rfl, by simpa using h1⟩⟩
      · rcases List.mem_append.mp h' with h'' | h''
        · exact Or.inl h''
        · simp only [List.mem_singleton] at h''
          subst h''
          exact Or.inr ⟨rfl, Or.inr ⟨rfl, by simpa using h2⟩⟩
      · exact Or.inl h'
    · exact Or.inr h'

theorem dedupFirst_subset (l : List Keyword) :
    ∀ seen, ∀ k ∈ dedupFirst seen l, k ∈ l := by
  induction l with
  | nil => intro seen k h; simp [dedupFirst] at h
  | cons x rest ih =>
    intro seen k h
    unfold dedupFirst at h
    split_ifs at h with h1
    · exact List.mem_cons_of_mem _ (ih seen k h)
    · rcases List.mem_cons.mp h with rfl | h'
      · exact List.mem_cons_self _ _
      · exact List.mem_cons_of_mem _ (ih _ k h')

theorem dedupFirst_nodup (l : List Keyword) :
    ∀ seen, ((dedupFirst seen l).map Keyword.word).Nodup ∧
      ∀ w ∈ (dedupFirst seen l).map Keyword.word, w ∉ seen := by
  induction l with
  | nil => intro seen; simp [dedupFirst]
  | cons x rest ih =>
    intro seen
    unfold dedupFirst
    split_ifs with h1
    · exact ih seen
    · obtain ⟨ihn, ihs⟩ := ih (x.word :: seen)
      constructor
      · rw [List.map_cons, List.nodup_cons]
        exact ⟨fun hmem => (ihs _ hmem) (List.mem_cons_self _ _), ihn⟩
      · intro w hw
        rw [List.map_cons, List.mem_cons] at hw
        rcases hw with rfl | hw
        · exact h1
        · exact fun hseen => (ihs w hw) (List.mem_cons_of_mem _ hseen)

/-- C8: for every text and verdict, `extractKeywords` returns at most 5 entries
with pairwise distinct words, every entry carries its lexicon's sentiment and
weight 0.8, the output does not depend on the verdict argument, and on
"This is an amazing and wonderful product" it returns entries for both
"amazing" and "wonderful". -/
theorem C8_extractKeywords (text : String) (verdict : Sentiment) :
    (extractKeywords text verdict).length ≤ 5 ∧
    ((extractKeywords text verdict).map Keyword.word).Nodup ∧
    (∀ k ∈ extractKeywords text verdict, k.weight = 8/10 ∧
      ((k.sentiment = .positive ∧ k.word ∈ positiveWords) ∨
       (k.sentiment = .negative ∧ k.word ∈ negativeWords))) ∧
    (∀ v, extractKeywords text v = extractKeywords text verdict) ∧
    (∃ k ∈ extractKeywords "This is an amazing and wonderful product" verdict,
      k.word = "amazing") ∧
    (∃ k ∈ extractKeywords "This is an amazing and wonderful product" verdict,
      k.word = "wonderful") := by
  have hconc : extractKeywords "This is an amazing and wonderful product" verdict =
      [⟨"amazing", .positive, 8/10⟩, ⟨"wonderful", .positive, 8/10⟩] := rfl
  refine ⟨?_, ?_, ?_, fun v => rfl, ?_, ?_⟩
  · exact List.length_take_le 5 _
  · have h := (dedupFirst_nodup ((jsWords text).foldl keywordStep []) []).1
    exact h.sublist ((List.take_sublist _ _).map _)
  · intro k hk
    have h1 : k ∈ dedupFirst [] ((jsWords text).foldl keywordStep []) :=
      List.mem_of_mem_take hk
    have h2 := dedupFirst_subset _ [] k h1
    rcases mem_foldl_keywordStep (jsWords text) [] k h2 with h3 | h3
    · simp at h3
    · exact h3
  · exact ⟨⟨"amazing", .positive, 8/10⟩, by rw [hconc]; simp, rfl⟩
  · exact ⟨⟨"wonderful", .positive, 8/10⟩, by rw [hconc]; simp, rfl⟩

/-- The positive lexicon of `analyzeSentimentDemo` (lines 271–274): the first
18 entries of the Keyword Extractor's positive lexicon. -/
def demoPositiveWords : List String :=
  ["good", "great", "excellent", "amazing", "wonderful", "fantastic", "love", "best",
   "perfect", "awesome", "outstanding", "brilliant", "superb", "magnificent",
   "incredible", "marvelous", "exceptional", "delightful"]

/-- The negative lexicon of `analyzeSentimentDemo` (lines 276–279): the first
18 entries of the Keyword Extractor's negative lexicon. -/
def demoNegativeWords : List String :=
  ["bad", "terrible", "awful", "horrible", "hate", "worst", "disappointing", "poor",
   "useless", "disgusting", "dreadful", "appalling", "atrocious", "abysmal",
   "pathetic", "miserable", "unpleasant", "annoying"]

/-- One iteration of the hit-counting `words.forEach` of `analyzeSentimentDemo`
(lines 285–288); note both `if`s run (no `else`). -/
def demoHitsStep (acc : Nat × Nat) (word : String) : Nat × Nat :=
  (if demoPositiveWords.contains word then acc.1 + 1 else acc.1,
   if demoNegativeWords.contains word then acc.2 + 1 else acc.2)

/-- `(positiveScore, negativeScore)` after the counting loop of
`analyzeSentimentDemo`. -/
def demoHits (text : String) : Nat × Nat :=
  (jsWords text).foldl demoHitsStep (0, 0)

/-- The random draws consumed by one `analyzeSentimentDemo` call, each
standing for one `Math.random()` evaluation (values in `[0,1)`). -/
structure DemoRandom where
  delay : ℚ
  neutralConf : ℚ
  fillPositive : ℚ
  fillNegative : ℚ
  fillNeutral : ℚ
deriving DecidableEq, Repr

/-- The analysis record produced by both `analyzeSentiment` and
`analyzeSentimentDemo` (their common resolve shape). -/
structure Analysis where
  sentiment : Sentiment
  confidence : ℚ
  scores : Scores
  keywords : List Keyword
  explanation : String
deriving DecidableEq, Repr

def sentimentText : Sentiment → String
  | .positive => "positive"
  | .negative => "negative"
  | .neutral => "neutral"

/-- `generateExplanation` (lines 246–257). The decimal rendering
`(confidence * 100).toFixed(1)` is abstracted as `toString`; no claim depends
on the rendered digits. -/
def generateExplanation (sentiment : Sentiment) (confidence : ℚ)
    (keywords : List Keyword) : String :=
  let level := if confidence > 8/10 then "high"
    else if confidence > 6/10 then "moderate" else "low"
  let kw :=
    if keywords.length > 0 then
      " Key indicators include words like: " ++
        String.intercalate ", " (keywords.map Keyword.word) ++ "."
    else ""
  "This text shows " ++ sentimentText sentiment ++ " sentiment with " ++ level ++
    " confidence (" ++ toString (confidence * 100) ++ "%)." ++ kw

/-- `analyzeSentimentDemo` (lines 260–322), with the artificial delay dropped
(it does not affect the returned value) and each `Math.random()` replaced by
the corresponding field of `rnd`. -/
def analyzeSentimentDemo (text : String) (rnd : DemoRandom) : Analysis :=
  let hits := demoHits text
  let sc : Sentiment × ℚ :=
    if hits.1 > hits.2 then
      (.positive, min (65/100 + (hits.1 : ℚ) * (8/100)) (92/100))
    else if hits.2 > hits.1 then
      (.negative, min (65/100 + (hits.2 : ℚ) * (8/100)) (92/100))
    else
      (.neutral, 55/100 + rnd.neutralConf * (25/100))
  let sentiment := sc.1
  let confidence := sc.2
  let remaining := 1 - confidence
  let scores0 : Scores :=
    ⟨if sentiment = .positive then confidence else rnd.fillPositive * remaining * (6/10),
     if sentiment = .negative then confidence else rnd.fillNegative * remaining * (6/10),
     if sentiment = .neutral then confidence else rnd.fillNeutral * remaining * (6/10)⟩
  let scores : Scores :=
    ⟨scores0.positive / scores0.total, scores0.negative / scores0.total,
     scores0.neutral / scores0.total⟩
  { sentiment := sentiment, confidence := confidence, scores := scores,
    keywords := extractKeywords text sentiment,
    explanation := generateExplanation sentiment confidence (extractKeywords text sentiment) }

/-- C9: as stated the claim fails on the code. The demo simulator does NOT use
the Keyword Extractor's word lists: its lists stop after 18 entries, so on the
text "nice" (a hit in the extractor's positive lexicon) the demo counts zero
hits on both sides and returns a neutral verdict, where the claim demands a
positive verdict. -/
theorem C9_counterexample :
    "nice" ∈ positiveWords ∧ "nice" ∉ negativeWords ∧
    jsWords "nice" = ["nice"] ∧
    "nice" ∉ demoPositiveWords ∧
    demoHits "nice" = (0, 0) ∧
    (analyzeSentimentDemo "nice" ⟨0, 0, 0, 0, 0⟩).sentiment = Sentiment.neutral ∧
    Sentiment.neutral ≠ Sentiment.positive := by
  exact ⟨by decide, by decide, by decide, by decide, by decide, rfl, by decide⟩

/-- C9 (amended): the demo simulator counts lexicon hits over the first 18
entries of each of the Keyword Extractor's word lists (a strict prefix, not
the same lists); when positive hits exceed negative the verdict is positive
with confidence `min(0.65 + 0.08·positiveHits, 0.92)`, symmetrically for
negative, and equal hit counts yield a neutral verdict. -/
theorem C9_amended (text : String) (rnd : DemoRandom) :
    demoPositiveWords = positiveWords.take 18 ∧
    demoNegativeWords = negativeWords.take 18 ∧
    ((demoHits text).1 > (demoHits text).2 →
      (analyzeSentimentDemo text rnd).sentiment = .positive ∧
      (analyzeSentimentDemo text rnd).confidence =
        min (65/100 + ((demoHits text).1 : ℚ) * (8/100)) (92/100)) ∧
    ((demoHits text).2 > (demoHits text).1 →
      (analyzeSentimentDemo text rnd).sentiment = .negative ∧
      (analyzeSentimentDemo text rnd).confidence =
        min (65/100 + ((demoHits text).2 : ℚ) * (8/100)) (92/100)) ∧
    ((demoHits text).1 = (demoHits text).2 →
      (analyzeSentimentDemo text rnd).sentiment = .neutral) := by
  refine ⟨by decide, by decide, ?_, ?_, ?_⟩
  · intro h
    constructor <;> simp [analyzeSentimentDemo, h]
  · intro h
    have h' : ¬ ((demoHits text).1 > (demoHits text).2) := by omega
    constructor <;> simp [analyzeSentimentDemo, h, h']
  · intro h
    have h1 : ¬ ((demoHits text).1 > (demoHits text).2) := by omega
    have h2 : ¬ ((demoHits text).2 > (demoHits text).1) := by omega
    simp [analyzeSentimentDemo, h1, h2]

/-- C9 (amended) at a concrete input: "good" has one demo-lexicon positive hit
and no negative hit, and the demo verdict is positive with confidence 0.73. -/
theorem C9_amended_witness :
    (demoHits "good").1 > (demoHits "good").2 ∧
    (analyzeSentimentDemo "good" ⟨0, 0, 0, 0, 0⟩).sentiment = .positive ∧
    (analyzeSentimentDemo "good" ⟨0, 0, 0, 0, 0⟩).confidence =
      min (65/100 + ((demoHits "good").1 : ℚ) * (8/100)) (92/100) := by
  have h : (demoHits "good").1 > (demoHits "good").2 := by decide
  have t := (C9_amended "good" ⟨0, 0, 0, 0, 0⟩).2.2.1 h
  exact ⟨h, t.1, t.2⟩

/-- Parsed view of a response body on the success path (lines 116–130):
`JSON.parse` failure, an array whose first element is an array (nested shape,
line 125), a nonempty array of label/score objects (flat shape, line 127), an
empty array, or some other JSON value. -/
inductive ParsedBody where
  | invalid
  | nested (first : List RawEntry)
  | flat (first : RawEntry) (rest : List RawEntry)
  | emptyArray
  | other
deriving DecidableEq, Repr

/-- The error-body parse `JSON.parse(responseText) as HuggingFaceError`
(lines 90–101): `error` field and optional `estimated_time`. -/
structure HFError where
  error : String
  estimatedTime : Option ℚ
deriving DecidableEq, Repr

/-- One HTTP response as `makeApiCall` observes it: status, status text, the
body parsed as an error object (`none` when `JSON.parse` throws or there is no
`error` field), and the body parsed for the success path. -/
structure HttpResponse where
  status : Nat
  statusText : String
  errorBody : Option HFError
  parsed : ParsedBody
deriving DecidableEq, Repr

/-- `response.ok`: status in 200–299. -/
def isOk (status : Nat) : Bool := 200 ≤ status && status < 300

def noKeyMsg : String :=
  "Hugging Face API key not set. Please add your API key in the settings."

def badKeyFormatMsg : String :=
  "Invalid API key format. Hugging Face API keys should start with \"hf_\"."

def modelUnavailableMsg : String :=
  "Model not found. The sentiment analysis model may be temporarily unavailable. Please try again later."

def invalidKeyMsg : String :=
  "Invalid API key. Please check your Hugging Face API key in Settings."

def forbiddenMsg : String :=
  "Access forbidden. Please check your API key permissions or try a different model."

def rateLimitMsg : String :=
  "Rate limit exceeded. Please wait a moment before making more requests."

def modelLoadingMsg : String :=
  "Model is currently loading. Please try again in a few moments."

def invalidFormatMsg : String :=
  "Invalid response format from API. Please try again."

def unexpectedFormatMsg : String :=
  "Unexpected API response format. Please try again."

def networkErrorMsg : String :=
  "Network error. Please check your internet connection and try again."

/-- The initial `errorMessage` (line 78). -/
def defaultFailMsg (r : HttpResponse) : String :=
  "API request failed (" ++ toString r.status ++ "): " ++ r.statusText

/-- `errorMessage` after the error-body parse (lines 90–101): a truthy `error`
field replaces the default, and a truthy `estimated_time` appends the
model-loading hint. -/
def bodyFailMsg (r : HttpResponse) : String :=
  match r.errorBody with
  | some e =>
    if e.error ≠ "" then
      e.error ++
        (match e.estimatedTime with
         | some t =>
           if t ≠ 0 then
             " Model is loading, estimated time: " ++ toString t ++
               "s. Please try again in a moment."
           else ""
         | none => "")
    else defaultFailMsg r
  | none => defaultFailMsg r

/-- The non-404 failure routing (lines 103–113): 401, 403, 429 and 503 map to
their fixed messages, anything else surfaces `errorMessage`. -/
def failMessage (r : HttpResponse) : String :=
  if r.status = 401 then invalidKeyMsg
  else if r.status = 403 then forbiddenMsg
  else if r.status = 429 then rateLimitMsg
  else if r.status = 503 then modelLoadingMsg
  else bodyFailMsg r

/-- JavaScript `s.startsWith(pat)`. -/
def strStartsWith (s pat : String) : Bool := leadsList pat.toList s.toList

/-- The success-path body handling of `makeApiCall` (lines 116–132): nested
arrays return the first inner array, a nonempty flat array of entries with a
truthy `label` is returned whole, anything else is an unexpected format. -/
def apiSuccessParse (r : HttpResponse) : Except String (List RawEntry) :=
  match r.parsed with
  | .invalid => .error invalidFormatMsg
  | .nested first => .ok first
  | .flat first rest =>
    if first.label = "" then .error unexpectedFormatMsg
    else .ok (first :: rest)
  | .emptyArray => .error unexpectedFormatMsg
  | .other => .error unexpectedFormatMsg

/-- The response handling of one `makeApiCall` attempt (lines 75–132), with
the action taken on a 404 passed in by the caller (retry against the fallback
when this was the primary attempt, terminal error when it was the fallback). -/
def handleResponse (r : HttpResponse) (on404 : Except String (List RawEntry)) :
    Except String (List RawEntry) :=
  if isOk r.status then apiSuccessParse r
  else if r.status = 404 then on404
  else .error (failMessage r)

/-- `makeApiCall` (lines 46–139). The network is an oracle
`fetch : Bool → Option HttpResponse` giving the response of the primary
(`false`) or fallback (`true`) endpoint; `none` is a transport failure.
The outgoing payload (the text truncated to 500 characters, the
`wait_for_model`/`use_cache` options) does not influence which branch runs,
so it is absorbed by the oracle. The source is one recursive function on the
`useFailover` flag; it is written here with the flag's two values as separate
match arms so the single 404 retry is the `false` arm calling the `true` arm. -/
def makeApiCall (apiKey : String) (fetch : Bool → Option HttpResponse)
    (text : String) : Bool → Except String (List RawEntry)
  | true =>
    if apiKey = "" then .error noKeyMsg
    else if !(strStartsWith apiKey "hf_") then .error badKeyFormatMsg
    else
      match fetch true with
      | none => .error networkErrorMsg
      | some r => handleResponse r (.error modelUnavailableMsg)
  | false =>
    if apiKey = "" then .error noKeyMsg
    else if !(strStartsWith apiKey "hf_") then .error badKeyFormatMsg
    else
      match fetch false with
      | none => .error networkErrorMsg
      | some r => handleResponse r (makeApiCall apiKey fetch text true)
termination_by b => (if b then 0 else 1)
decreasing_by decide

/-- C7: a 404 from the primary endpoint causes exactly one retry against the
fallback (the call's outcome IS the fallback call's outcome); a 404 from the
fallback is terminal with the model-unavailable message; a non-404 failure
from the fallback surfaces that status's own typed error — 401/403/429/503
map to their fixed messages, anything else to the body-derived request error —
and each of those four fixed messages differs from the 404 message. -/
theorem C7_failover (apiKey text : String) (fetch : Bool → Option HttpResponse)
    (hkey1 : apiKey ≠ "") (hkey2 : strStartsWith apiKey "hf_" = true)
    (r1 : HttpResponse) (hfetch : fetch false = some r1) (h404 : r1.status = 404) :
    makeApiCall apiKey fetch text false = makeApiCall apiKey fetch text true ∧
    (∀ r2, fetch true = some r2 →
      (r2.status = 404 →
        makeApiCall apiKey fetch text false = .error modelUnavailableMsg) ∧
      (isOk r2.status = false → r2.status ≠ 404 →
        makeApiCall apiKey fetch text false = .error (failMessage r2) ∧
        (r2.status = 401 → failMessage r2 = invalidKeyMsg) ∧
        (r2.status = 403 → failMessage r2 = forbiddenMsg) ∧
        (r2.status = 429 → failMessage r2 = rateLimitMsg) ∧
        (r2.status = 503 → failMessage r2 = modelLoadingMsg))) ∧
    (invalidKeyMsg ≠ modelUnavailableMsg ∧ forbiddenMsg ≠ modelUnavailableMsg ∧
     rateLimitMsg ≠ modelUnavailableMsg ∧ modelLoadingMsg ≠ modelUnavailableMsg) := by
  have hok404 : isOk 404 = false := by decide
  have hfirst : makeApiCall apiKey fetch text false = makeApiCall apiKey fetch text true := by
    conv_lhs => rw [makeApiCall]
    simp [hkey1, hkey2, hfetch, handleResponse, h404, hok404]
  refine ⟨hfirst, ?_, by decide, by decide, by decide, by decide⟩
  intro r2 hf2
  constructor
  · intro h4042
    rw [hfirst, makeApiCall]
    simp [hkey1, hkey2, hf2, handleResponse, h4042, hok404]
  · intro hok2 hne
    have hmain : makeApiCall apiKey fetch text false = .error (failMessage r2) := by
      rw [hfirst, makeApiCall]
      simp [hkey1, hkey2, hf2, handleResponse, hok2, hne]
    refine ⟨hmain, ?_, ?_, ?_, ?_⟩ <;> intro h <;> simp [failMessage, h]

/-- C7 at a concrete input: primary answers 404, fallback answers 429; the
call surfaces the rate-limit message, not the 404 message. -/
theorem C7_failover_witness :
    ("hf_demo" ≠ "" ∧ strStartsWith "hf_demo" "hf_" = true ∧
      (fun b : Bool => if b then some (⟨429, "Too Many Requests", none, .other⟩ : HttpResponse)
        else some ⟨404, "Not Found", none, .other⟩) false = some ⟨404, "Not Found", none, .other⟩ ∧
      (404 : Nat) = 404) ∧
    makeApiCall "hf_demo"
      (fun b : Bool => if b then some ⟨429, "Too Many Requests", none, .other⟩
        else some ⟨404, "Not Found", none, .other⟩) "some text" false =
      .error rateLimitMsg := by
  have h := C7_failover "hf_demo" "some text"
    (fun b : Bool => if b then some ⟨429, "Too Many Requests", none, .other⟩
      else some ⟨404, "Not Found", none, .other⟩)
    (by decide) (by decide) ⟨404, "Not Found", none, .other⟩ rfl rfl
  have h2 := (h.2.1 ⟨429, "Too Many Requests", none, .other⟩ rfl).2 (by decide) (by decide)
  refine ⟨⟨by decide, by decide, rfl, rfl⟩, ?_⟩
  rw [h2.1, h2.2.2.2.1 rfl]

/-- One stored Result entity (`SentimentResult` in types/sentiment.ts).
Timestamps are modelled as natural numbers. -/
structure Result where
  id : String
  text : String
  sentiment : Sentiment
  confidence : ℚ
  scores : Scores
  keywords : List Keyword
  timestamp : Nat
  explanation : String
deriving DecidableEq, Repr

/-- JavaScript number results of a division: finite, `NaN`, or an infinity. -/
inductive JSNum where
  | nan
  | inf
  | ninf
  | val (q : ℚ)
deriving DecidableEq, Repr

/-- JavaScript division `a / b` for finite operands: `0/0` is `NaN`, other
division by zero gives a signed infinity. -/
def jsDiv (a b : ℚ) : JSNum :=
  if b = 0 then
    if a = 0 then .nan else if a > 0 then .inf else .ninf
  else .val (a / b)

/-- The `summary` object of a Batch (lines 108–114). -/
structure BatchSummary where
  totalTexts : Nat
  positiveCount : Nat
  negativeCount : Nat
  neutralCount : Nat
  averageConfidence : JSNum
deriving DecidableEq, Repr

/-- One stored Batch entity (`BatchResult` in types/sentiment.ts). The member
list holds full Result records, as in the source. -/
structure BatchResult where
  id : String
  name : String
  results : List Result
  summary : BatchSummary
  createdAt : Nat
deriving DecidableEq, Repr

/-- The hook's `AnalysisState`. -/
structure AnalysisState where
  isLoading : Bool
  progress : ℚ
  error : Option String
  results : List Result
  batches : List BatchResult
deriving DecidableEq, Repr

/-- The two persisted localStorage records (`sentimentResults`,
`sentimentBatches`); `removeItem` and an absent record both read back as `[]`
through the `|| '[]'` hydration, so storage is modelled as the two lists. -/
structure Storage where
  sentimentResults : List Result
  sentimentBatches : List BatchResult
deriving DecidableEq, Repr

/-- In-memory state plus persisted storage. -/
structure HookState where
  state : AnalysisState
  storage : Storage
deriving DecidableEq, Repr

/-- Fresh start: empty collections, empty storage. -/
def initialHookState : HookState := ⟨⟨false, 0, none, [], []⟩, ⟨[], []⟩⟩

/-- JavaScript `text.trim()` (both ends, whitespace). -/
def jsTrim (s : String) : String :=
  String.mk (((s.toList.dropWhile Char.isWhitespace).reverse.dropWhile
    Char.isWhitespace).reverse)

/-- The skip test of the batch loop (line 79): `if (text.trim())` — a
whitespace-only text is falsy and is skipped. -/
def isBlank (text : String) : Bool := jsTrim text == ""

/-- `analyzeSingleText` (lines 29–68). `oracle` stands for
`analyzeSentiment`/`analyzeSentimentDemo` (network/randomness), `freshId` for
the generated `result_...` id, `now` for `Date.now()`. Returns the new hook
state and the Result or the thrown error message. -/
def analyzeSingleText (oracle : String → Except String Analysis) (freshId : String)
    (now : Nat) (text : String) (s : HookState) : HookState × Except String Result :=
  let s1 : AnalysisState := { s.state with isLoading := true, error := none, progress := 0 }
  match oracle text with
  | .error e =>
    (⟨{ s1 with isLoading := false, error := some e }, s.storage⟩, .error e)
  | .ok a =>
    let r : Result :=
      ⟨freshId, text, a.sentiment, a.confidence, a.scores, a.keywords, now, a.explanation⟩
    let newResults := r :: s1.results
    (⟨{ s1 with results := newResults, isLoading := false, progress := 100 },
      ⟨newResults, s1.batches⟩⟩, .ok r)

/-- The `for` loop of `analyzeBatch` (lines 77–102): blank texts are skipped,
each non-blank text is analyzed and pushed, and after every index the progress
becomes `((i+1)/total)·100`. On a failure the loop aborts with the error and
the progress reached so far. -/
def batchLoop (oracle : String → Except String Analysis) (ids : Nat → String)
    (now : Nat) (total : Nat) :
    List String → Nat → List Result → ℚ → Except (String × ℚ) (List Result × ℚ)
  | [], _, acc, p => .ok (acc, p)
  | text :: rest, i, acc, p =>
    if isBlank text then
      batchLoop oracle ids now total rest (i + 1) acc (((i : ℚ) + 1) / (total : ℚ) * 100)
    else
      match oracle text with
      | .error e => .error (e, p)
      | .ok a =>
        let r : Result :=
          ⟨ids i, text, a.sentiment, a.confidence, a.scores, a.keywords, now, a.explanation⟩
        batchLoop oracle ids now total rest (i + 1) (acc ++ [r])
          (((i : ℚ) + 1) / (total : ℚ) * 100)

/-- The `summary` construction of `analyzeBatch` (lines 108–114); the average
is the unguarded JavaScript division `sum / results.length`. -/
def mkBatchSummary (results : List Result) : BatchSummary :=
  ⟨results.length,
   (results.filter (fun r => r.sentiment == Sentiment.positive)).length,
   (results.filter (fun r => r.sentiment == Sentiment.negative)).length,
   (results.filter (fun r => r.sentiment == Sentiment.neutral)).length,
   jsDiv ((results.map Result.confidence).sum) (results.length : ℚ)⟩

/-- `analyzeBatch` (lines 70–139). `ids n` is the id generated for the `n`-th
loop index, `batchId` the generated batch id, `now` the timestamp. -/
def analyzeBatch (oracle : String → Except String Analysis) (ids : Nat → String)
    (batchId : String) (now : Nat) (texts : List String) (batchName : String)
    (s : HookState) : HookState × Except String BatchResult :=
  let s1 : AnalysisState := { s.state with isLoading := true, error := none, progress := 0 }
  match batchLoop oracle ids now texts.length texts 0 [] 0 with
  | .error (e, p) =>
    (⟨{ s1 with isLoading := false, error := some e, progress := p }, s.storage⟩, .error e)
  | .ok (results, p) =>
    let batch : BatchResult := ⟨batchId, batchName, results, mkBatchSummary results, now⟩
    let newResults := results ++ s1.results
    let newBatches := batch :: s1.batches
    (⟨{ s1 with results := newResults, batches := newBatches, isLoading := false, progress := p },
      ⟨newResults, newBatches⟩⟩, .ok batch)

/-- `clearResults` (lines 141–145): collections emptied, storage erased. -/
def clearResults (s : HookState) : HookState :=
  ⟨{ s.state with results := [], batches := [] }, ⟨[], []⟩⟩

/-- `deleteResult` (lines 147–153): filters that id out of the Result
collection; batches are untouched. -/
def deleteResult (id : String) (s : HookState) : HookState :=
  let newResults := s.state.results.filter (fun r => r.id ≠ id)
  ⟨{ s.state with results := newResults }, ⟨newResults, s.state.batches⟩⟩

/-- `deleteBatch` (lines 155–166): finds the batch, removes every batch with
that id, and removes every Result whose id occurs among the found batch's
member Results. -/
def deleteBatch (id : String) (s : HookState) : HookState :=
  let batch := s.state.batches.find? (fun b => b.id == id)
  let newBatches := s.state.batches.filter (fun b => b.id ≠ id)
  let newResults :=
    match batch with
    | some b => s.state.results.filter (fun r => !(b.results.any (fun br => br.id == r.id)))
    | none => s.state.results
  ⟨{ s.state with results := newResults, batches := newBatches }, ⟨newResults, newBatches⟩⟩

/-- The member-id list of a Batch. -/
def batchMemberIds (b : BatchResult) : List String := b.results.map Result.id

/-- The §3 invariant: every Result referenced by any Batch's member list also
appears in the global Result collection (by id). -/
def RefsIntact (s : HookState) : Prop :=
  ∀ b ∈ s.state.batches, ∀ r ∈ b.results, ∃ x ∈ s.state.results, x.id = r.id

/-- States reachable from the empty state by the five orchestrator operations,
with arbitrary oracles, ids and timestamps — the reachability relation named
by the claim. -/
inductive Reachable : HookState → Prop where
  | init : Reachable initialHookState
  | single (s : HookState) (oracle : String → Except String Analysis)
      (freshId : String) (now : Nat) (text : String) :
      Reachable s → Reachable (analyzeSingleText oracle freshId now text s).1
  | batch (s : HookState) (oracle : String → Except String Analysis)
      (ids : Nat → String) (batchId : String) (now : Nat) (texts : List String)
      (name : String) :
      Reachable s → Reachable (analyzeBatch oracle ids batchId now texts name s).1
  | delResult (s : HookState) (id : String) :
      Reachable s → Reachable (deleteResult id s)
  | delBatch (s : HookState) (id : String) :
      Reachable s → Reachable (deleteBatch id s)
  | clear (s : HookState) : Reachable s → Reachable (clearResults s)

/-- States reachable from the empty state WITHOUT `deleteResult`, and with
batch analysis assigning Result ids that occur in no existing batch (the data
model's generation-time id uniqueness). -/
inductive ReachableND : HookState → Prop where
  | init : ReachableND initialHookState
  | single (s : HookState) (oracle : String → Except String Analysis)
      (freshId : String) (now : Nat) (text : String) :
      ReachableND s → ReachableND (analyzeSingleText oracle freshId now text s).1
  | batch (s : HookState) (oracle : String → Except String Analysis)
      (ids : Nat → String) (batchId : String) (now : Nat) (texts : List String)
      (name : String) :
      ReachableND s →
      (∀ n, ∀ b ∈ s.state.batches, ids n ∉ batchMemberIds b) →
      ReachableND (analyzeBatch oracle ids batchId now texts name s).1
  | delBatch (s : HookState) (id : String) :
      ReachableND s → ReachableND (deleteBatch id s)
  | clear (s : HookState) : ReachableND s → ReachableND (clearResults s)

/-- A fixed successful analysis outcome, for concrete scenarios. -/
def demoAnalysis : Analysis := ⟨.positive, 7/10, ⟨7/10, 2/10, 1/10⟩, [], ""⟩

/-- An oracle whose every analysis succeeds with `demoAnalysis`. -/
def constOracle : String → Except String Analysis := fun _ => .ok demoAnalysis

/-- An oracle whose every analysis fails. -/
def failOracle : String → Except String Analysis := fun _ => .error "Analysis failed"

/-- A deterministic id supply. -/
def constIds : Nat → String := fun n => "r" ++ toString n

theorem analyzeSingleText_error_proj (oracle : String → Except String Analysis)
    (freshId : String) (now : Nat) (text : String) (s : HookState) (e : String)
    (h : oracle text = .error e) :
    (analyzeSingleText oracle freshId now text s).1.state.results = s.state.results ∧
    (analyzeSingleText oracle freshId now text s).1.state.batches = s.state.batches ∧
    (analyzeSingleText oracle freshId now text s).1.storage = s.storage := by
  simp [analyzeSingleText, h]

theorem analyzeSingleText_ok_proj (oracle : String → Except String Analysis)
    (freshId : String) (now : Nat) (text : String) (s : HookState) (a : Analysis)
    (h : oracle text = .ok a) :
    (analyzeSingleText oracle freshId now text s).1.state.results =
      (⟨freshId, text, a.sentiment, a.confidence, a.scores, a.keywords, now,
        a.explanation⟩ : Result) :: s.state.results ∧
    (analyzeSingleText oracle freshId now text s).1.state.batches = s.state.batches := by
  simp [analyzeSingleText, h]

theorem analyzeBatch_error_proj (oracle : String → Except String Analysis)
    (ids : Nat → String) (batchId : String) (now : Nat) (texts : List String)
    (name : String) (s : HookState) (e : String) (p : ℚ)
    (h : batchLoop oracle ids now texts.length texts 0 [] 0 = .error (e, p)) :
    (analyzeBatch oracle ids batchId now texts name s).1.state.results = s.state.results ∧
    (analyzeBatch oracle ids batchId now texts name s).1.state.batches = s.state.batches ∧
    (analyzeBatch oracle ids batchId now texts name s).1.storage = s.storage := by
  simp [analyzeBatch, h]

theorem analyzeBatch_ok_proj (oracle : String → Except String Analysis)
    (ids : Nat → String) (batchId : String) (now : Nat) (texts : List String)
    (name : String) (s : HookState) (results : List Result) (p : ℚ)
    (h : batchLoop oracle ids now texts.length texts 0 [] 0 = .ok (results, p)) :
    (analyzeBatch oracle ids batchId now texts name s).1.state.results =
      results ++ s.state.results ∧
    (analyzeBatch oracle ids batchId now texts name s).1.state.batches =
      (⟨batchId, name, results, mkBatchSummary results, now⟩ : BatchResult)
        :: s.state.batches := by
  simp [analyzeBatch, h]

theorem batchLoop_ok_mem (oracle : String → Except String Analysis) (ids : Nat → String)
    (now total : Nat) :
    ∀ (texts : List String) (i : Nat) (acc : List Result) (p : ℚ)
      (results : List Result) (pf : ℚ),
      batchLoop oracle ids now total texts i acc p = .ok (results, pf) →
      ∀ r ∈ results, r ∈ acc ∨ ∃ n, r.id = ids n := by
  intro texts
  induction texts with
  | nil =>
    intro i acc p results pf h r hr
    simp [batchLoop] at h
    rw [← h.1] at hr
    exact Or.inl hr
  | cons t ts ih =>
    intro i acc p results pf h r hr
    cases hb : isBlank t with
    | true =>
      simp only [batchLoop, hb, if_true] at h
      exact ih _ _ _ _ _ h r hr
    | false =>
      cases ho : oracle t with
      | error e =>
        simp only [batchLoop, hb, Bool.false_eq_true, if_false, ho] at h
        simp at h
      | ok a =>
        simp only [batchLoop, hb, Bool.false_eq_true, if_false, ho] at h
        rcases ih _ _ _ _ _ h r hr with hin | hn
        · rcases List.mem_append.mp hin with h1 | h1
          · exact Or.inl h1
          · simp only [List.mem_singleton] at h1
            subst h1
            exact Or.inr ⟨i, rfl⟩
        · exact Or.inr hn

theorem batchLoop_blank (oracle : String → Except String Analysis) (ids : Nat → String)
    (now total : Nat) :
    ∀ (texts : List String) (i : Nat) (acc : List Result) (p : ℚ),
      (∀ t ∈ texts, isBlank t = true) →
      ∃ pf, batchLoop oracle ids now total texts i acc p = .ok (acc, pf) := by
  intro texts
  induction texts with
  | nil => intro i acc p _; exact ⟨p, rfl⟩
  | cons t ts ih =>
    intro i acc p hall
    have hb : isBlank t = true := hall t (List.mem_cons_self t ts)
    obtain ⟨pf, hpf⟩ :=
      ih (i + 1) acc (((i : ℚ) + 1) / (total : ℚ) * 100)
        (fun x hx => hall x (List.mem_cons_of_mem _ hx))
    refine ⟨pf, ?_⟩
    simp only [batchLoop, hb, if_true]
    exact hpf

/-- Pairwise disjointness of the member-id lists of the stored batches: no
Result id is claimed by two different batches (the data model's ownership). -/
def BatchesDisjoint (s : HookState) : Prop :=
  List.Pairwise (fun b1 b2 => ∀ i ∈ batchMemberIds b1, i ∉ batchMemberIds b2)
    s.state.batches

theorem strongInv_single (oracle : String → Except String Analysis) (freshId : String)
    (now : Nat) (text : String) (s : HookState)
    (hs : RefsIntact s) (hd : BatchesDisjoint s) :
    RefsIntact (analyzeSingleText oracle freshId now text s).1 ∧
    BatchesDisjoint (analyzeSingleText oracle freshId now text s).1 := by
  cases h : oracle text with
  | error e =>
    obtain ⟨h1, h2, _⟩ := analyzeSingleText_error_proj oracle freshId now text s e h
    constructor
    · intro b hb r hr
      rw [h2] at hb
      rw [h1]
      exact hs b hb r hr
    · unfold BatchesDisjoint
      rw [h2]
      exact hd
  | ok a =>
    obtain ⟨h1, h2⟩ := analyzeSingleText_ok_proj oracle freshId now text s a h
    constructor
    · intro b hb r hr
      rw [h2] at hb
      obtain ⟨x, hx, hxid⟩ := hs b hb r hr
      rw [h1]
      exact ⟨x, List.mem_cons_of_mem _ hx, hxid⟩
    · unfold BatchesDisjoint
      rw [h2]
      exact hd

theorem strongInv_batch (oracle : String → Except String Analysis) (ids : Nat → String)
    (batchId : String) (now : Nat) (texts : List String) (name : String) (s : HookState)
    (hs : RefsIntact s) (hd : BatchesDisjoint s)
    (hfresh : ∀ n, ∀ b ∈ s.state.batches, ids n ∉ batchMemberIds b) :
    RefsIntact (analyzeBatch oracle ids batchId now texts name s).1 ∧
    BatchesDisjoint (analyzeBatch oracle ids batchId now texts name s).1 := by
  cases h : batchLoop oracle ids now texts.length texts 0 [] 0 with
  | error ep =>
    obtain ⟨e, p⟩ := ep
    obtain ⟨h1, h2, _⟩ := analyzeBatch_error_proj oracle ids batchId now texts name s e p h
    constructor
    · intro b hb r hr
      rw [h2] at hb
      rw [h1]
      exact hs b hb r hr
    · unfold BatchesDisjoint
      rw [h2]
      exact hd
  | ok rp =>
    obtain ⟨results, p⟩ := rp
    have hids : ∀ r ∈ results, ∃ n, r.id = ids n := by
      intro r hr
      rcases batchLoop_ok_mem oracle ids now texts.length texts 0 [] 0 results p h r hr
        with hin | hn
      · simp at hin
      · exact hn
    obtain ⟨h1, h2⟩ := analyzeBatch_ok_proj oracle ids batchId now texts name s results p h
    constructor
    · intro b hb r hr
      rw [h2, List.mem_cons] at hb
      rcases hb with rfl | hb
      · rw [h1]
        exact ⟨r, List.mem_append_left _ hr, rfl⟩
      · obtain ⟨x, hx, hxid⟩ := hs b hb r hr
        rw [h1]
        exact ⟨x, List.mem_append_right _ hx, hxid⟩
    · unfold BatchesDisjoint
      rw [h2, List.pairwise_cons]
      constructor
      · intro b2 hb2 i hi
        unfold batchMemberIds at hi
        simp only [List.mem_map] at hi
        obtain ⟨r, hr, hrid⟩ := hi
        obtain ⟨n, hn⟩ := hids r hr
        rw [← hrid, hn]
        exact hfresh n b2 hb2
      · exact hd

theorem deleteBatch_none_proj (id : String) (s : HookState)
    (h : s.state.batches.find? (fun b => b.id == id) = none) :
    (deleteBatch id s).state.results = s.state.results ∧
    (deleteBatch id s).state.batches = s.state.batches.filter (fun b => b.id ≠ id) := by
  simp [deleteBatch, h]

theorem deleteBatch_some_proj (id : String) (s : HookState) (b0 : BatchResult)
    (h : s.state.batches.find? (fun b => b.id == id) = some b0) :
    (deleteBatch id s).state.results =
      s.state.results.filter (fun r => !(b0.results.any (fun br => br.id == r.id))) ∧
    (deleteBatch id s).state.batches = s.state.batches.filter (fun b => b.id ≠ id) ∧
    (deleteBatch id s).storage =
      ⟨(deleteBatch id s).state.results, (deleteBatch id s).state.batches⟩ := by
  simp [deleteBatch, h]

theorem strongInv_delBatch (id : String) (s : HookState)
    (hs : RefsIntact s) (hd : BatchesDisjoint s) :
    RefsIntact (deleteBatch id s) ∧ BatchesDisjoint (deleteBatch id s) := by
  cases hfind : s.state.batches.find? (fun b => b.id == id) with
  | none =>
    obtain ⟨hres, hbat⟩ := deleteBatch_none_proj id s hfind
    constructor
    · intro b hb r hr
      rw [hbat] at hb
      rw [hres]
      exact hs b (List.mem_of_mem_filter hb) r hr
    · unfold BatchesDisjoint
      rw [hbat]
      exact hd.sublist (List.filter_sublist _)
  | some b0 =>
    obtain ⟨hres, hbat, _⟩ := deleteBatch_some_proj id s b0 hfind
    have hb0mem : b0 ∈ s.state.batches := List.mem_of_find?_eq_some hfind
    have hb0id : b0.id = id := by
      have := List.find?_some hfind
      simpa using this
    have hsym : Symmetric
        (fun b1 b2 : BatchResult => ∀ i ∈ batchMemberIds b1, i ∉ batchMemberIds b2) :=
      fun b1 b2 h i hi2 hi1 => h i hi1 hi2
    constructor
    · intro b hb r hr
      rw [hbat] at hb
      have hbmem := List.mem_of_mem_filter hb
      have hbid : b.id ≠ id := by
        have := List.of_mem_filter hb
        simpa using this
      obtain ⟨x, hx, hxid⟩ := hs b hbmem r hr
      rw [hres]
      refine ⟨x, List.mem_filter.mpr ⟨hx, ?_⟩, hxid⟩
      simp only [Bool.not_eq_true', List.any_eq_false, beq_eq_false_iff_ne, ne_eq]
      intro br hbr heq
      have hid1 : r.id ∈ batchMemberIds b := List.mem_map_of_mem _ hr
      have heq2 : br.id = x.id := eq_of_beq heq
      have hid2 : r.id ∈ batchMemberIds b0 := by
        unfold batchMemberIds
        rw [← hxid, ← heq2]
        exact List.mem_map_of_mem _ hbr
      have hne : b ≠ b0 := fun hEq => hbid (by rw [hEq]; exact hb0id)
      exact (hd.forall hsym) hbmem hb0mem hne r.id hid1 hid2
    · unfold BatchesDisjoint
      rw [hbat]
      exact hd.sublist (List.filter_sublist _)

theorem strongInv_clear (s : HookState) :
    RefsIntact (clearResults s) ∧ BatchesDisjoint (clearResults s) := by
  constructor
  · intro b hb
    simp [clearResults] at hb
  · unfold BatchesDisjoint
    simp [clearResults]

theorem reachableND_strongInv {s : HookState} (h : ReachableND s) :
    RefsIntact s ∧ BatchesDisjoint s := by
  induction h with
  | init =>
    constructor
    · intro b hb
      simp [initialHookState] at hb
    · unfold BatchesDisjoint
      simp [initialHookState]
  | single s oracle freshId now text _ ih =>
    exact strongInv_single oracle freshId now text s ih.1 ih.2
  | batch s oracle ids batchId now texts name _ hfresh ih =>
    exact strongInv_batch oracle ids batchId now texts name s ih.1 ih.2 hfresh
  | delBatch s id _ ih => exact strongInv_delBatch id s ih.1 ih.2
  | clear s _ ih => exact strongInv_clear s

/-- C4 (amended): every orchestrator operation except `deleteResult` preserves
the invariant that every Result id referenced by a Batch's member list occurs
in the global Result collection, provided batch analysis assigns ids that
occur in no existing batch (the data model's id uniqueness); hence every state
reachable from the empty state without `deleteResult` satisfies it. -/
theorem C4_amended (s : HookState) (h : ReachableND s) : RefsIntact s :=
  (reachableND_strongInv h).1

/-- C4: as stated the claim fails on the code. `deleteResult` removes a Result
from the collection without touching any Batch, so deleting a batch member
leaves that Batch referencing a missing Result. The state reached from the
empty state by one successful `analyzeBatch` followed by `deleteResult` of the
produced Result id violates the invariant. -/
theorem C4_counterexample :
    Reachable (deleteResult "r0"
      (analyzeBatch constOracle constIds "b0" 0 ["good movie"] "t" initialHookState).1) ∧
    ¬ RefsIntact (deleteResult "r0"
      (analyzeBatch constOracle constIds "b0" 0 ["good movie"] "t" initialHookState).1) := by
  constructor
  · exact Reachable.delResult _ "r0"
      (Reachable.batch _ constOracle constIds "b0" 0 ["good movie"] "t" Reachable.init)
  · intro hinv
    have h1 : isBlank "good movie" = false := by decide
    have h2 : constIds 0 = "r0" := by decide
    have hbat : (deleteResult "r0"
        (analyzeBatch constOracle constIds "b0" 0 ["good movie"] "t"
          initialHookState).1).state.batches =
        [⟨"b0", "t", [⟨"r0", "good movie", .positive, 7/10, ⟨7/10, 2/10, 1/10⟩, [], 0, ""⟩],
          mkBatchSummary [⟨"r0", "good movie", .positive, 7/10, ⟨7/10, 2/10, 1/10⟩, [], 0, ""⟩],
          0⟩] := by
      simp [deleteResult, analyzeBatch, batchLoop, constOracle, initialHookState,
        demoAnalysis, h1, h2]
    have hres : (deleteResult "r0"
        (analyzeBatch constOracle constIds "b0" 0 ["good movie"] "t"
          initialHookState).1).state.results = [] := by
      simp [deleteResult, analyzeBatch, batchLoop, constOracle, initialHookState,
        demoAnalysis, h1, h2]
    have hbmem : (⟨"b0", "t",
        [⟨"r0", "good movie", .positive, 7/10, ⟨7/10, 2/10, 1/10⟩, [], 0, ""⟩],
        mkBatchSummary [⟨"r0", "good movie", .positive, 7/10, ⟨7/10, 2/10, 1/10⟩, [], 0, ""⟩],
        0⟩ : BatchResult) ∈ (deleteResult "r0"
        (analyzeBatch constOracle constIds "b0" 0 ["good movie"] "t"
          initialHookState).1).state.batches := by
      rw [hbat]
      exact List.mem_cons_self _ _
    obtain ⟨x, hx, _⟩ := hinv _ hbmem
      ⟨"r0", "good movie", .positive, 7/10, ⟨7/10, 2/10, 1/10⟩, [], 0, ""⟩
      (List.mem_cons_self _ _)
    rw [hres] at hx
    exact absurd hx (List.not_mem_nil x)

/-- C4 (amended) at a concrete input: the state after one successful
`analyzeBatch` from the empty state is reachable without `deleteResult` and
satisfies the invariant. -/
theorem C4_amended_witness :
    ReachableND (analyzeBatch constOracle constIds "b0" 0 ["good movie"] "t"
      initialHookState).1 ∧
    RefsIntact (analyzeBatch constOracle constIds "b0" 0 ["good movie"] "t"
      initialHookState).1 := by
  have hr : ReachableND (analyzeBatch constOracle constIds "b0" 0 ["good movie"] "t"
      initialHookState).1 :=
    ReachableND.batch _ constOracle constIds "b0" 0 ["good movie"] "t" ReachableND.init
      (by intro n b hb; simp [initialHookState] at hb)
  exact ⟨hr, C4_amended _ hr⟩

theorem find?_id_eq_of_nodup (l : List BatchResult) (b : BatchResult) (id : String)
    (hb : b ∈ l) (hid : b.id = id) (hnd : (l.map BatchResult.id).Nodup) :
    l.find? (fun x => x.id == id) = some b := by
  induction l with
  | nil => simp at hb
  | cons x xs ih =>
    rw [List.map_cons, List.nodup_cons] at hnd
    rcases List.mem_cons.mp hb with rfl | hb2
    · rw [List.find?_cons_of_pos]
      simp [hid]
    · have hxid : x.id ≠ id := by
        intro hEq
        apply hnd.1
        rw [hEq, ← hid]
        exact List.mem_map_of_mem _ hb2
      rw [List.find?_cons_of_neg xs (by simp [hxid])]
      exact ih hb2 hnd.2

theorem filter_id_ne_eq_erase (l : List BatchResult) (b : BatchResult)
    (hb : b ∈ l) (hnd : (l.map BatchResult.id).Nodup) :
    l.filter (fun x => x.id ≠ b.id) = l.erase b := by
  induction l with
  | nil => simp at hb
  | cons x xs ih =>
    rw [List.map_cons, List.nodup_cons] at hnd
    rcases List.mem_cons.mp hb with rfl | hb2
    · rw [List.erase_cons_head, List.filter_cons_of_neg (by simp)]
      apply List.filter_eq_self.mpr
      intro a ha
      simp only [ne_eq, decide_eq_true_eq]
      intro hEq
      exact hnd.1 (hEq ▸ List.mem_map_of_mem _ ha)
    · have hxb : x ≠ b := by
        rintro rfl
        exact hnd.1 (List.mem_map_of_mem _ hb2)
      have hxidb : x.id ≠ b.id := by
        intro hEq
        apply hnd.1
        rw [hEq]
        exact List.mem_map_of_mem _ hb2
      rw [List.erase_cons_tail (by simp [hxb]), List.filter_cons_of_pos (by simp [hxidb])]
      rw [ih hb2 hnd.2]

/-- C5: for every state whose batch ids are unique and every batch `b` present
in it, `deleteBatch b.id` removes exactly that Batch from the batch collection
and removes exactly those Results whose ids are members of `b`'s result list;
every other Result (in particular any standalone Result, whatever its text)
remains, and the updated collections are persisted. -/
theorem C5_deleteBatch (s : HookState) (id : String) (b : BatchResult)
    (hmem : b ∈ s.state.batches) (hid : b.id = id)
    (hnd : (s.state.batches.map BatchResult.id).Nodup) :
    (deleteBatch id s).state.batches = s.state.batches.erase b ∧
    (∀ r ∈ s.state.results, r.id ∈ batchMemberIds b → r ∉ (deleteBatch id s).state.results) ∧
    (∀ r ∈ s.state.results, r.id ∉ batchMemberIds b → r ∈ (deleteBatch id s).state.results) ∧
    (deleteBatch id s).storage =
      ⟨(deleteBatch id s).state.results, (deleteBatch id s).state.batches⟩ := by
  have hfind : s.state.batches.find? (fun x => x.id == id) = some b :=
    find?_id_eq_of_nodup s.state.batches b id hmem hid hnd
  obtain ⟨hres, hbat, hstor⟩ := deleteBatch_some_proj id s b hfind
  refine ⟨?_, ?_, ?_, hstor⟩
  · rw [hbat, ← hid]
    exact filter_id_ne_eq_erase s.state.batches b hmem hnd
  · intro r hr hmemid
    rw [hres]
    intro hmem2
    have hcond := List.of_mem_filter hmem2
    unfold batchMemberIds at hmemid
    rw [List.mem_map] at hmemid
    obtain ⟨br, hbr, hbrid⟩ := hmemid
    rw [Bool.not_eq_true', List.any_eq_false] at hcond
    have := hcond br hbr
    simp [hbrid] at this
  · intro r hr hnid
    rw [hres]
    refine List.mem_filter.mpr ⟨hr, ?_⟩
    rw [Bool.not_eq_true', List.any_eq_false]
    intro br hbr hEq2
    apply hnid
    unfold batchMemberIds
    rw [← eq_of_beq hEq2]
    exact List.mem_map_of_mem _ hbr

/-- A concrete batch member Result. -/
def cresA : Result := ⟨"ra", "good", .positive, 7/10, ⟨7/10, 2/10, 1/10⟩, [], 0, ""⟩

/-- A concrete standalone Result with the SAME text as `cresA` but its own id. -/
def cresB : Result := ⟨"rb", "good", .positive, 7/10, ⟨7/10, 2/10, 1/10⟩, [], 0, ""⟩

/-- A concrete Batch owning exactly `cresA`. -/
def cbatchA : BatchResult := ⟨"ba", "batch", [cresA], mkBatchSummary [cresA], 0⟩

/-- A concrete state holding `cresA` (in the batch) and the standalone `cresB`. -/
def cstate5 : HookState :=
  ⟨⟨false, 0, none, [cresA, cresB], [cbatchA]⟩, ⟨[cresA, cresB], [cbatchA]⟩⟩

/-- C5 at a concrete input: deleting `cbatchA` removes the batch and its member
`cresA` but keeps the standalone `cresB` whose text equals the deleted
member's text. -/
theorem C5_deleteBatch_witness :
    (cbatchA ∈ cstate5.state.batches ∧ cbatchA.id = "ba" ∧
      (cstate5.state.batches.map BatchResult.id).Nodup) ∧
    (deleteBatch "ba" cstate5).state.batches = cstate5.state.batches.erase cbatchA ∧
    cresA ∉ (deleteBatch "ba" cstate5).state.results ∧
    cresB ∈ (deleteBatch "ba" cstate5).state.results := by
  have h1 : cbatchA ∈ cstate5.state.batches := by simp [cstate5]
  have h2 : cbatchA.id = "ba" := rfl
  have h3 : (cstate5.state.batches.map BatchResult.id).Nodup := by
    simp [cstate5]
  have h := C5_deleteBatch cstate5 "ba" cbatchA h1 h2 h3
  refine ⟨⟨h1, h2, h3⟩, h.1, ?_, ?_⟩
  · exact h.2.1 cresA (by simp [cstate5]) (by simp [batchMemberIds, cbatchA])
  · refine h.2.2.1 cresB (by simp [cstate5]) ?_
    simp [batchMemberIds, cbatchA, cresA, cresB]

/-- C6: a failure anywhere inside the batch loop aborts the batch: the Result
and Batch collections and the persisted storage are exactly as before the
call, the loading flag is cleared, the error message is recorded in state, and
the call itself surfaces the error. -/
theorem C6_batchFailure (oracle : String → Except String Analysis) (ids : Nat → String)
    (batchId : String) (now : Nat) (texts : List String) (name : String)
    (s : HookState) (e : String) (p : ℚ)
    (h : batchLoop oracle ids now texts.length texts 0 [] 0 = .error (e, p)) :
    (analyzeBatch oracle ids batchId now texts name s).1.state.results = s.state.results ∧
    (analyzeBatch oracle ids batchId now texts name s).1.state.batches = s.state.batches ∧
    (analyzeBatch oracle ids batchId now texts name s).1.storage = s.storage ∧
    (analyzeBatch oracle ids batchId now texts name s).1.state.isLoading = false ∧
    (analyzeBatch oracle ids batchId now texts name s).1.state.error = some e ∧
    (analyzeBatch oracle ids batchId now texts name s).2 = .error e := by
  simp [analyzeBatch, h]

/-- C6 at a concrete input: an oracle that fails on "good" aborts the batch on
the populated state `cstate5`, leaving both collections and storage intact. -/
theorem C6_batchFailure_witness :
    batchLoop failOracle constIds 0 (["good"] : List String).length ["good"] 0 [] 0 =
      .error ("Analysis failed", 0) ∧
    (analyzeBatch failOracle constIds "b1" 0 ["good"] "t" cstate5).1.state.results =
      cstate5.state.results ∧
    (analyzeBatch failOracle constIds "b1" 0 ["good"] "t" cstate5).1.state.batches =
      cstate5.state.batches ∧
    (analyzeBatch failOracle constIds "b1" 0 ["good"] "t" cstate5).1.storage =
      cstate5.storage ∧
    (analyzeBatch failOracle constIds "b1" 0 ["good"] "t" cstate5).1.state.isLoading = false ∧
    (analyzeBatch failOracle constIds "b1" 0 ["good"] "t" cstate5).1.state.error =
      some "Analysis failed" ∧
    (analyzeBatch failOracle constIds "b1" 0 ["good"] "t" cstate5).2 =
      .error "Analysis failed" := by
  have hloop : batchLoop failOracle constIds 0 (["good"] : List String).length ["good"] 0 [] 0 =
      .error ("Analysis failed", 0) := by
    have hb : isBlank "good" = false := by decide
    simp [batchLoop, hb, failOracle]
  have h := C6_batchFailure failOracle constIds "b1" 0 ["good"] "t" cstate5
    "Analysis failed" 0 hloop
  exact ⟨hloop, h.1, h.2.1, h.2.2.1, h.2.2.2.1, h.2.2.2.2.1, h.2.2.2.2.2⟩

/-- C10: a non-empty all-blank input list still creates and persists a Batch:
every entry is skipped by the `text.trim()` test, so the result set is empty,
the summary has `totalTexts = 0`, all per-label counts 0, and
`averageConfidence` is the unguarded division `0/0 = NaN`; the call succeeds
and the Result collection is unchanged. -/
theorem C10_blankBatch (oracle : String → Except String Analysis) (ids : Nat → String)
    (batchId : String) (now : Nat) (texts : List String) (name : String) (s : HookState)
    (hne : texts ≠ []) (hblank : ∀ t ∈ texts, isBlank t = true) :
    ∃ b : BatchResult,
      (analyzeBatch oracle ids batchId now texts name s).2 = .ok b ∧
      b.id = batchId ∧ b.name = name ∧ b.results = [] ∧
      b.summary = ⟨0, 0, 0, 0, JSNum.nan⟩ ∧
      (analyzeBatch oracle ids batchId now texts name s).1.state.results =
        s.state.results ∧
      (analyzeBatch oracle ids batchId now texts name s).1.state.batches =
        b :: s.state.batches ∧
      (analyzeBatch oracle ids batchId now texts name s).1.storage =
        ⟨s.state.results, b :: s.state.batches⟩ := by
  obtain ⟨pf, hpf⟩ := batchLoop_blank oracle ids now texts.length texts 0 [] 0 hblank
  have hsum : mkBatchSummary ([] : List Result) = ⟨0, 0, 0, 0, JSNum.nan⟩ := by
    simp [mkBatchSummary, jsDiv]
  refine ⟨⟨batchId, name, [], mkBatchSummary [], now⟩, ?_, rfl, rfl, rfl, hsum, ?_, ?_, ?_⟩
    <;> simp [analyzeBatch, hpf]

/-- C10 at a concrete input: the two-entry all-blank list `["", "   "]` on the
empty state yields a Batch with an empty result set and a NaN average. -/
theorem C10_blankBatch_witness :
    ((["", "   "] : List String) ≠ [] ∧ (∀ t ∈ (["", "   "] : List String), isBlank t = true)) ∧
    (∃ b : BatchResult,
      (analyzeBatch constOracle constIds "b0" 0 ["", "   "] "empty" initialHookState).2 =
        .ok b ∧
      b.id = "b0" ∧ b.name = "empty" ∧ b.results = [] ∧
      b.summary = ⟨0, 0, 0, 0, JSNum.nan⟩ ∧
      (analyzeBatch constOracle constIds "b0" 0 ["", "   "] "empty"
        initialHookState).1.state.results = initialHookState.state.results ∧
      (analyzeBatch constOracle constIds "b0" 0 ["", "   "] "empty"
        initialHookState).1.state.batches = b :: initialHookState.state.batches ∧
      (analyzeBatch constOracle constIds "b0" 0 ["", "   "] "empty"
        initialHookState).1.storage =
        ⟨initialHookState.state.results, b :: initialHookState.state.batches⟩) :=
  ⟨⟨by decide, by decide⟩,
    C10_blankBatch constOracle constIds "b0" 0 ["", "   "] "empty" initialHookState
      (by decide) (by decide)⟩

end SentimentLab
